import Mathlib

/-!
Shallow embedding of the rule-execution engine of `src/app.py`
(`SearchRule`, `EnhancedDJESearcher.search_with_params`,
`EnhancedDJESearcher.execute_rules`, `EnhancedDJESearcher.remove_duplicates`).

Python dicts are modelled as insertion-ordered association lists, the HTTP
transport as a list of per-request outcomes consumed in order, and the
engine's observable effects (progress callbacks, HTTP requests, sleeps,
`st.error` calls) as an event trace.
-/

/-- A scalar query-parameter value: a string, a number, or Python `None`. -/
inductive Val where
  | s (v : String)
  | n (v : Nat)
  | null
deriving DecidableEq, Repr

/-- A Python dict with string keys, as an insertion-ordered association list. -/
abbrev Dict := List (String × Val)

/-- Python `d[k] = v`: replace the binding of `k` in place, else append it. -/
def dictSet : Dict → String → Val → Dict
  | [], k, v => [(k, v)]
  | (k', v') :: rest, k, v =>
    if k' = k then (k, v) :: rest else (k', v') :: dictSet rest k v

/-- Python `d.get(k)`. -/
def dictGet : Dict → String → Option Val
  | [], _ => none
  | (k', v') :: rest, k => if k' = k then some v' else dictGet rest k

/-- An API publication item.  The engine only inspects the `hash`, `id` and
`numeroprocessocommascara` fields (each possibly absent); `texto` stands for
the rest of the opaque payload. -/
structure Item where
  hash : Option String
  id : Option String
  numeroprocessocommascara : Option String
  texto : String
deriving DecidableEq, Repr

/-- `pub.get('hash', pub.get('id', ''))` — the key `execute_rules` uses for
And-intersection and for exclusion filtering (app.py lines 180-184, 198-200). -/
def exclKey (p : Item) : String :=
  match p.hash with
  | some h => h
  | none => p.id.getD ""

/-- The composite fallback id built by `remove_duplicates`:
`f"{pub.get('id','')}_{pub.get('numeroprocessocommascara','')}"`. -/
def compositeId (p : Item) : String :=
  p.id.getD "" ++ "_" ++ p.numeroprocessocommascara.getD ""

/-- The key `remove_duplicates` actually deduplicates by: the `hash` field when
it is present and truthy (non-empty), else the composite fallback id.  Both
kinds of key live in the one `seen_hashes` set. -/
def dedupeKey (p : Item) : String :=
  match p.hash with
  | some h => if h = "" then compositeId p else h
  | none => compositeId p

/-- Loop of `remove_duplicates` (app.py lines 206-223): `seen` is the
`seen_hashes` set (a list, used only through membership). -/
def removeDupGo : List String → List Item → List Item
  | _, [] => []
  | seen, p :: rest =>
    match p.hash with
    | some h =>
      if h = "" then
        if compositeId p ∈ seen then removeDupGo seen rest
        else p :: removeDupGo (compositeId p :: seen) rest
      else
        if h ∈ seen then removeDupGo seen rest
        else p :: removeDupGo (h :: seen) rest
    | none =>
      if compositeId p ∈ seen then removeDupGo seen rest
      else p :: removeDupGo (compositeId p :: seen) rest

/-- `EnhancedDJESearcher.remove_duplicates`. -/
def remove_duplicates (publications : List Item) : List Item :=
  removeDupGo [] publications

inductive RuleType where
  | INCLUDE
  | EXCLUDE
deriving DecidableEq, Repr

inductive RuleOperator where
  | AND
  | OR
deriving DecidableEq, Repr

structure SearchRule where
  name : String
  rule_type : RuleType
  operator : RuleOperator
  enabled : Bool
  parameters : Dict
deriving DecidableEq, Repr

/-- `SearchRule(...)` construction including `__post_init__`, which drops
parameters whose value is `None` or the empty string. -/
def mkSearchRule (name : String) (rule_type : RuleType) (operator : RuleOperator)
    (enabled : Bool) (parameters : Dict) : SearchRule :=
  ⟨name, rule_type, operator, enabled,
    parameters.filter (fun kv => decide (kv.2 ≠ Val.null ∧ kv.2 ≠ Val.s ""))⟩

/-- One observed transport outcome for a single HTTP GET. -/
inductive Resp where
  | ok (items : List Item)
  | rateLimited
  | httpError (code : Nat)
  | exn (msg : String)
deriving DecidableEq, Repr

/-- Externally visible effects of the engine: progress-callback calls, issued
HTTP requests (with their full query dict), sleeps, and `st.error` calls. -/
inductive Ev where
  | progress (msg : String)
  | request (query : Dict)
  | sleep (seconds : ℚ)
  | error (msg : String)
deriving DecidableEq, Repr

/-- `search_params['pagina']`, read back out of the query dict. -/
def getPage (d : Dict) : Nat :=
  match dictGet d "pagina" with
  | some (Val.n k) => k
  | _ => 0

def pageMsg (ruleName : String) (d : Dict) : String :=
  "Executando " ++ ruleName ++ " - Página " ++ toString (getPage d)

/-- The `while True` pagination loop of `search_with_params` (app.py lines
122-152).  One transport outcome is consumed per iteration; an exhausted
outcome stream (the next request would block forever) yields `none`. -/
def searchLoop (ruleName : String) : Dict → List Item → List Resp →
    Option (List Item) × List Ev
  | _, _, [] => (none, [])
  | d, publications, r :: rest =>
    match r with
    | Resp.ok items =>
      if items.isEmpty then
        (some publications, [Ev.progress (pageMsg ruleName d), Ev.request d])
      else
        let next := searchLoop ruleName (dictSet d "pagina" (Val.n (getPage d + 1)))
          (publications ++ items) rest
        (next.1, Ev.progress (pageMsg ruleName d) :: Ev.request d ::
          Ev.sleep (1/2) :: next.2)
    | Resp.rateLimited =>
      let next := searchLoop ruleName d publications rest
      (next.1, Ev.progress (pageMsg ruleName d) :: Ev.request d ::
        Ev.progress "Rate limit atingido. Aguardando..." :: Ev.sleep 10 :: next.2)
    | Resp.httpError code =>
      (some publications, [Ev.progress (pageMsg ruleName d), Ev.request d,
        Ev.error ("Erro na busca " ++ ruleName ++ ": " ++ toString code)])
    | Resp.exn msg =>
      (some publications, [Ev.progress (pageMsg ruleName d), Ev.request d,
        Ev.error ("Erro na requisição " ++ ruleName ++ ": " ++ msg)])

/-- `EnhancedDJESearcher.search_with_params` (app.py lines 111-152): copies the
params, adds `itensPorPagina=50` and `pagina=1`, reads the `_rule_name` tag,
then runs the pagination loop. -/
def search_with_params (params : Dict) (responses : List Resp) :
    Option (List Item) × List Ev :=
  let search_params := dictSet (dictSet params "itensPorPagina" (Val.n 50)) "pagina" (Val.n 1)
  let rule_name :=
    match dictGet params "_rule_name" with
    | some (Val.s v) => v
    | _ => "Busca"
  searchLoop rule_name search_params [] responses

/-- The rule loop of `execute_rules` (app.py lines 159-187).  Each enabled rule
consumes the next outcome stream from `nets`; disabled rules consume nothing.
Python's key sets are modelled as key lists, used only through membership.
Returns the include/exclude accumulators (`none` if some rule's stream was
exhausted before its pagination finished). -/
def runRules : List SearchRule → List (List Resp) → List Item → List Item →
    Option (List Item × List Item) × List Ev
  | [], _, inc, exc => (some (inc, exc), [])
  | rule :: rs, nets, inc, exc =>
    if rule.enabled then
      match nets with
      | [] => (none, [Ev.progress ("Executando regra: " ++ rule.name)])
      | net :: nets' =>
        let rule_params := dictSet rule.parameters "_rule_name" (Val.s rule.name)
        let res := search_with_params rule_params net
        match res.1 with
        | none => (none, Ev.progress ("Executando regra: " ++ rule.name) :: res.2)
        | some publications =>
          let acc :=
            match rule.rule_type with
            | RuleType.INCLUDE =>
              match rule.operator with
              | RuleOperator.OR => (inc ++ publications, exc)
              | RuleOperator.AND =>
                if inc.isEmpty then (publications, exc)
                else
                  let common := (inc.map exclKey).filter
                    (fun k => decide (k ∈ publications.map exclKey))
                  (inc.filter (fun p => decide (exclKey p ∈ common)), exc)
            | RuleType.EXCLUDE => (inc, exc ++ publications)
          let next := runRules rs nets' acc.1 acc.2
          (next.1, Ev.progress ("Executando regra: " ++ rule.name) :: res.2 ++ next.2)
    else
      runRules rs nets inc exc

/-- `EnhancedDJESearcher.execute_rules` (app.py lines 154-204): run all rules,
deduplicate the include accumulator, then filter out the exclusions by key. -/
def execute_rules (rules : List SearchRule) (nets : List (List Resp)) :
    Option (List Item) × List Ev :=
  let r := runRules rules nets [] []
  match r.1 with
  | none => (none, r.2)
  | some (inc, exc) =>
    let include_publications := remove_duplicates inc
    if exc.isEmpty then
      (some include_publications,
        r.2 ++ [Ev.progress "Removendo duplicatas das inclusões..."])
    else
      let exclude_keys := exc.map exclKey
      (some (include_publications.filter (fun p => decide (exclKey p ∉ exclude_keys))),
        r.2 ++ [Ev.progress "Removendo duplicatas das inclusões...",
          Ev.progress "Aplicando exclusões..."])

/-- The HTTP requests (query dicts) occurring in an event trace, in order. -/
def requestsOf (evs : List Ev) : List Dict :=
  evs.filterMap (fun e => match e with | Ev.request q => some q | _ => none)

/-- Modelled from the spec's words ("`contentHash` field if present and
non-empty; otherwise the pair `(recordId, caseNumber)` as a composite fallback
key"), for comparison with the keys the code computes. -/
def specIdentityKey (p : Item) : String ⊕ (String × String) :=
  match p.hash with
  | some h =>
    if h = "" then Sum.inr (p.id.getD "", p.numeroprocessocommascara.getD "")
    else Sum.inl h
  | none => Sum.inr (p.id.getD "", p.numeroprocessocommascara.getD "")

/-! ### Dict lemmas -/

theorem dictGet_dictSet_self (d : Dict) (k : String) (v : Val) :
    dictGet (dictSet d k v) k = some v := by
  induction d with
  | nil => simp [dictSet, dictGet]
  | cons kv rest ih =>
    by_cases h : kv.1 = k
    · simp [dictSet, dictGet, h]
    · simp [dictSet, dictGet, h, ih]

theorem dictSet_dictSet (d : Dict) (k : String) (v w : Val) :
    dictSet (dictSet d k v) k w = dictSet d k w := by
  induction d with
  | nil => simp [dictSet]
  | cons kv rest ih =>
    by_cases h : kv.1 = k
    · simp [dictSet, h]
    · simp [dictSet, h, ih]

theorem dictSet_of_get (d : Dict) (k : String) (v : Val) (h : dictGet d k = some v) :
    dictSet d k v = d := by
  induction d with
  | nil => simp [dictGet] at h
  | cons kv rest ih =>
    obtain ⟨k1, v1⟩ := kv
    by_cases hk : k1 = k
    · subst hk
      simp [dictGet] at h
      subst h
      simp [dictSet]
    · simp [dictGet, hk] at h
      simp [dictSet, hk, ih h]

theorem getPage_dictSet (d : Dict) (k : Nat) :
    getPage (dictSet d "pagina" (Val.n k)) = k := by
  simp [getPage, dictGet_dictSet_self]

/-! ### Deduplication lemmas -/

theorem removeDupGo_cons (seen : List String) (p : Item) (rest : List Item) :
    removeDupGo seen (p :: rest) =
      if dedupeKey p ∈ seen then removeDupGo seen rest
      else p :: removeDupGo (dedupeKey p :: seen) rest := by
  cases hp : p.hash with
  | none => simp [removeDupGo, dedupeKey, hp]
  | some h =>
    by_cases hh : h = ""
    · simp [removeDupGo, dedupeKey, hp, hh]
    · simp [removeDupGo, dedupeKey, hp, hh]

theorem removeDupGo_sublist : ∀ (l : List Item) (seen : List String),
    (removeDupGo seen l).Sublist l := by
  intro l
  induction l with
  | nil => intro seen; simp [removeDupGo]
  | cons p rest ih =>
    intro seen
    rw [removeDupGo_cons]
    by_cases h : dedupeKey p ∈ seen
    · rw [if_pos h]
      exact List.Sublist.cons _ (ih seen)
    · rw [if_neg h]
      exact List.Sublist.cons₂ _ (ih _)

theorem dedupeKey_notMem_seen : ∀ (l : List Item) (seen : List String) (q : Item),
    q ∈ removeDupGo seen l → dedupeKey q ∉ seen := by
  intro l
  induction l with
  | nil => intro seen q hq; simp [removeDupGo] at hq
  | cons p rest ih =>
    intro seen q hq
    rw [removeDupGo_cons] at hq
    by_cases h : dedupeKey p ∈ seen
    · rw [if_pos h] at hq
      exact ih seen q hq
    · rw [if_neg h] at hq
      rcases List.mem_cons.mp hq with rfl | hq'
      · exact h
      · intro hs
        exact ih _ q hq' (List.mem_cons_of_mem _ hs)

theorem removeDupGo_keys_nodup : ∀ (l : List Item) (seen : List String),
    ((removeDupGo seen l).map dedupeKey).Nodup := by
  intro l
  induction l with
  | nil => intro seen; simp [removeDupGo]
  | cons p rest ih =>
    intro seen
    rw [removeDupGo_cons]
    by_cases h : dedupeKey p ∈ seen
    · rw [if_pos h]; exact ih seen
    · rw [if_neg h]
      simp only [List.map_cons, List.nodup_cons]
      refine ⟨?_, ih _⟩
      intro hmem
      rcases List.mem_map.mp hmem with ⟨q, hq, hkey⟩
      exact dedupeKey_notMem_seen rest _ q hq (hkey ▸ List.mem_cons_self _ _)

theorem removeDupGo_covers : ∀ (l : List Item) (seen : List String) (p : Item),
    p ∈ l → dedupeKey p ∈ seen ∨ ∃ q ∈ removeDupGo seen l, dedupeKey q = dedupeKey p := by
  intro l
  induction l with
  | nil => intro seen p hp; cases hp
  | cons a rest ih =>
    intro seen p hp
    rw [removeDupGo_cons]
    by_cases h : dedupeKey a ∈ seen
    · rw [if_pos h]
      rcases List.mem_cons.mp hp with rfl | hp'
      · exact Or.inl h
      · exact ih seen p hp'
    · rw [if_neg h]
      rcases List.mem_cons.mp hp with rfl | hp'
      · exact Or.inr ⟨p, List.mem_cons_self _ _, rfl⟩
      · rcases ih (dedupeKey a :: seen) p hp' with hs | ⟨q, hq, hkey⟩
        · rcases List.mem_cons.mp hs with heq | hs'
          · exact Or.inr ⟨a, List.mem_cons_self _ _, heq.symm⟩
          · exact Or.inl hs'
        · exact Or.inr ⟨q, List.mem_cons_of_mem _ hq, hkey⟩

theorem removeDupGo_firstOcc : ∀ (l : List Item) (seen : List String) (q : Item),
    q ∈ removeDupGo seen l →
    l.find? (fun p => dedupeKey p == dedupeKey q) = some q := by
  intro l
  induction l with
  | nil => intro seen q hq; simp [removeDupGo] at hq
  | cons a rest ih =>
    intro seen q hq
    rw [removeDupGo_cons] at hq
    by_cases h : dedupeKey a ∈ seen
    · rw [if_pos h] at hq
      have hne : ¬ dedupeKey a = dedupeKey q := by
        intro heq
        exact dedupeKey_notMem_seen rest seen q hq (heq ▸ h)
      rw [List.find?_cons_of_neg _ (by simpa using hne)]
      exact ih seen q hq
    · rw [if_neg h] at hq
      rcases List.mem_cons.mp hq with rfl | hq'
      · rw [List.find?_cons_of_pos _ (by simp)]
      · have hne : ¬ dedupeKey a = dedupeKey q := by
          intro heq
          exact dedupeKey_notMem_seen rest (dedupeKey a :: seen) q hq'
            (heq ▸ List.mem_cons_self _ _)
        rw [List.find?_cons_of_neg _ (by simpa using hne)]
        exact ih _ q hq'

theorem removeDupGo_of_nodup : ∀ (l : List Item) (seen : List String),
    (l.map dedupeKey).Nodup → (∀ p ∈ l, dedupeKey p ∉ seen) →
    removeDupGo seen l = l := by
  intro l
  induction l with
  | nil => intro seen _ _; simp [removeDupGo]
  | cons a rest ih =>
    intro seen hnd hdis
    have hnd' : (∀ x ∈ rest, ¬ dedupeKey x = dedupeKey a) ∧ (rest.map dedupeKey).Nodup := by
      simpa using hnd
    rw [removeDupGo_cons, if_neg (hdis a (List.mem_cons_self _ _))]
    congr 1
    apply ih
    · exact hnd'.2
    · intro p hp
      have h1 : ¬ dedupeKey p = dedupeKey a := hnd'.1 p hp
      have h2 := hdis p (List.mem_cons_of_mem _ hp)
      simp only [List.mem_cons, not_or]
      exact ⟨h1, h2⟩

/-! ### Pagination loop lemmas -/

theorem searchLoop_ok_nil (rn : String) (d : Dict) (pubs : List Item) (rest : List Resp) :
    searchLoop rn d pubs (Resp.ok [] :: rest) =
      (some pubs, [Ev.progress (pageMsg rn d), Ev.request d]) := rfl

theorem searchLoop_ok_nonempty (rn : String) (d : Dict) (pubs : List Item)
    (i : Item) (its : List Item) (rest : List Resp) :
    searchLoop rn d pubs (Resp.ok (i :: its) :: rest) =
      ((searchLoop rn (dictSet d "pagina" (Val.n (getPage d + 1))) (pubs ++ i :: its) rest).1,
       Ev.progress (pageMsg rn d) :: Ev.request d :: Ev.sleep (1/2) ::
         (searchLoop rn (dictSet d "pagina" (Val.n (getPage d + 1))) (pubs ++ i :: its) rest).2) :=
  rfl

theorem searchLoop_rateLimited (rn : String) (d : Dict) (pubs : List Item) (rest : List Resp) :
    searchLoop rn d pubs (Resp.rateLimited :: rest) =
      ((searchLoop rn d pubs rest).1,
       Ev.progress (pageMsg rn d) :: Ev.request d ::
         Ev.progress "Rate limit atingido. Aguardando..." :: Ev.sleep 10 ::
         (searchLoop rn d pubs rest).2) := rfl

theorem searchLoop_httpError (rn : String) (d : Dict) (pubs : List Item) (code : Nat)
    (rest : List Resp) :
    searchLoop rn d pubs (Resp.httpError code :: rest) =
      (some pubs, [Ev.progress (pageMsg rn d), Ev.request d,
        Ev.error ("Erro na busca " ++ rn ++ ": " ++ toString code)]) := rfl

theorem searchLoop_exn (rn : String) (d : Dict) (pubs : List Item) (msg : String)
    (rest : List Resp) :
    searchLoop rn d pubs (Resp.exn msg :: rest) =
      (some pubs, [Ev.progress (pageMsg rn d), Ev.request d,
        Ev.error ("Erro na requisição " ++ rn ++ ": " ++ msg)]) := rfl

theorem searchLoop_okPages_fst :
    ∀ (pages : List (List Item)) (rn : String) (d : Dict) (pubs : List Item) (rs : List Resp),
    (∀ pg ∈ pages, pg ≠ []) →
    dictGet d "pagina" = some (Val.n (getPage d)) →
    (searchLoop rn d pubs (pages.map Resp.ok ++ rs)).1
      = (searchLoop rn (dictSet d "pagina" (Val.n (getPage d + pages.length)))
          (pubs ++ pages.flatten) rs).1 := by
  intro pages
  induction pages with
  | nil =>
    intro rn d pubs rs _ hd
    simp [dictSet_of_get d "pagina" _ hd]
  | cons pg pages ih =>
    intro rn d pubs rs hne hd
    obtain ⟨i, its, rfl⟩ : ∃ i its, pg = i :: its := by
      cases pg with
      | nil => exact absurd rfl (hne [] (List.mem_cons_self _ _))
      | cons i its => exact ⟨i, its, rfl⟩
    rw [List.map_cons, List.cons_append, searchLoop_ok_nonempty]
    have hd' : dictGet (dictSet d "pagina" (Val.n (getPage d + 1))) "pagina"
        = some (Val.n (getPage (dictSet d "pagina" (Val.n (getPage d + 1))))) := by
      rw [getPage_dictSet, dictGet_dictSet_self]
    have hih := ih rn (dictSet d "pagina" (Val.n (getPage d + 1))) (pubs ++ i :: its) rs
      (fun x hx => hne x (List.mem_cons_of_mem _ hx)) hd'
    rw [hih, getPage_dictSet, dictSet_dictSet, List.append_assoc]
    have harith : getPage d + 1 + pages.length = getPage d + (pages.length + 1) := by omega
    rw [harith]
    rfl

theorem searchLoop_okPages_requests :
    ∀ (pages : List (List Item)) (rn : String) (d : Dict) (pubs : List Item) (rs : List Resp),
    (∀ pg ∈ pages, pg ≠ []) →
    dictGet d "pagina" = some (Val.n (getPage d)) →
    requestsOf (searchLoop rn d pubs (pages.map Resp.ok ++ rs)).2
      = (List.range pages.length).map (fun i => dictSet d "pagina" (Val.n (getPage d + i)))
        ++ requestsOf (searchLoop rn (dictSet d "pagina" (Val.n (getPage d + pages.length)))
            (pubs ++ pages.flatten) rs).2 := by
  intro pages
  induction pages with
  | nil =>
    intro rn d pubs rs _ hd
    simp [dictSet_of_get d "pagina" _ hd]
  | cons pg pages ih =>
    intro rn d pubs rs hne hd
    obtain ⟨i, its, rfl⟩ : ∃ i its, pg = i :: its := by
      cases pg with
      | nil => exact absurd rfl (hne [] (List.mem_cons_self _ _))
      | cons i its => exact ⟨i, its, rfl⟩
    rw [List.map_cons, List.cons_append, searchLoop_ok_nonempty]
    have hd' : dictGet (dictSet d "pagina" (Val.n (getPage d + 1))) "pagina"
        = some (Val.n (getPage (dictSet d "pagina" (Val.n (getPage d + 1))))) := by
      rw [getPage_dictSet, dictGet_dictSet_self]
    have hih := ih rn (dictSet d "pagina" (Val.n (getPage d + 1))) (pubs ++ i :: its) rs
      (fun x hx => hne x (List.mem_cons_of_mem _ hx)) hd'
    simp only [requestsOf, List.filterMap_cons] at hih ⊢
    rw [hih, getPage_dictSet]
    have hmapeq : (fun j => dictSet (dictSet d "pagina" (Val.n (getPage d + 1))) "pagina"
          (Val.n (getPage d + 1 + j)))
        = fun j => dictSet d "pagina" (Val.n (getPage d + (j + 1))) := by
      funext j
      rw [dictSet_dictSet]
      have : getPage d + 1 + j = getPage d + (j + 1) := by omega
      rw [this]
    rw [hmapeq]
    have hrange : (List.range (pages.length + 1)).map
          (fun j => dictSet d "pagina" (Val.n (getPage d + j)))
        = d :: (List.range pages.length).map
            (fun j => dictSet d "pagina" (Val.n (getPage d + (j + 1)))) := by
      rw [List.range_succ_eq_map, List.map_cons, List.map_map]
      rw [Nat.add_zero, dictSet_of_get d "pagina" _ hd]
      rfl
    rw [List.length_cons, hrange]
    have hcollapse : dictSet (dictSet d "pagina" (Val.n (getPage d + 1))) "pagina"
          (Val.n (getPage d + 1 + pages.length))
        = dictSet d "pagina" (Val.n (getPage d + (pages.length + 1))) := by
      rw [dictSet_dictSet]
      have : getPage d + 1 + pages.length = getPage d + (pages.length + 1) := by omega
      rw [this]
    rw [hcollapse]
    simp [List.flatten_cons, List.cons_append, List.append_assoc]

/-! ### Concrete fixtures used by counterexamples and witnesses -/

def itemA : Item := ⟨some "hA", some "1", some "pa", "A"⟩

def itemB : Item := ⟨some "hB", some "2", some "pb", "B"⟩

def itemC : Item := ⟨some "hC", some "3", some "pc", "C"⟩

def x0 : Item := ⟨none, some "1", some "a", "x"⟩

def y0 : Item := ⟨none, some "1", some "b", "y"⟩

def xh : Item := ⟨some "1_a", some "9", some "z", "p"⟩

def yc : Item := ⟨none, some "1", some "a", "q"⟩

def incOrRule : SearchRule :=
  mkSearchRule "R1" RuleType.INCLUDE RuleOperator.OR true [("ufOab", Val.s "ES")]

def excRule : SearchRule :=
  mkSearchRule "R2" RuleType.EXCLUDE RuleOperator.OR true [("nomeParte", Val.s "Sinales")]

def andRule1 : SearchRule :=
  mkSearchRule "A1" RuleType.INCLUDE RuleOperator.AND true [("ufOab", Val.s "ES")]

def andRule2 : SearchRule :=
  mkSearchRule "A2" RuleType.INCLUDE RuleOperator.AND true [("nomeParte", Val.s "Darwin")]

/-! ### C4 — pagination drains pages in order and stops at the first empty page -/

/-- C4: for a response stream of non-empty pages followed by an empty page, the
paginated executor returns exactly the concatenation of the pages in page
order, and it issues exactly one request per page plus the final empty-page
request: query dicts carrying the caller's parameters plus `itensPorPagina=50`
and `pagina = 1, 2, ...`, with nothing fetched after the first empty page
(the requests are independent of any surplus responses `rest`). -/
theorem c4_pagination (params : Dict) (pages : List (List Item)) (rest : List Resp)
    (hne : ∀ pg ∈ pages, pg ≠ []) :
    (search_with_params params (pages.map Resp.ok ++ Resp.ok [] :: rest)).1
      = some pages.flatten
    ∧ requestsOf (search_with_params params (pages.map Resp.ok ++ Resp.ok [] :: rest)).2
      = (List.range (pages.length + 1)).map (fun i =>
          dictSet (dictSet params "itensPorPagina" (Val.n 50)) "pagina" (Val.n (i + 1))) := by
  have hd : dictGet (dictSet (dictSet params "itensPorPagina" (Val.n 50)) "pagina" (Val.n 1))
      "pagina"
      = some (Val.n (getPage
          (dictSet (dictSet params "itensPorPagina" (Val.n 50)) "pagina" (Val.n 1)))) := by
    rw [getPage_dictSet]
    exact dictGet_dictSet_self _ _ _
  constructor
  · simp only [search_with_params]
    rw [searchLoop_okPages_fst pages _ _ _ _ hne hd, searchLoop_ok_nil]
    simp
  · simp only [search_with_params]
    rw [searchLoop_okPages_requests pages _ _ _ _ hne hd, searchLoop_ok_nil, getPage_dictSet]
    have hfun : (fun i => dictSet
          (dictSet (dictSet params "itensPorPagina" (Val.n 50)) "pagina" (Val.n 1))
          "pagina" (Val.n (1 + i)))
        = (fun i => dictSet (dictSet params "itensPorPagina" (Val.n 50)) "pagina"
            (Val.n (i + 1))) := by
      funext i
      rw [dictSet_dictSet, Nat.add_comm]
    have hlast : dictSet
          (dictSet (dictSet params "itensPorPagina" (Val.n 50)) "pagina" (Val.n 1))
          "pagina" (Val.n (1 + pages.length))
        = dictSet (dictSet params "itensPorPagina" (Val.n 50)) "pagina"
            (Val.n (pages.length + 1)) := by
      rw [dictSet_dictSet, Nat.add_comm]
    rw [List.range_succ, List.map_append, hfun, hlast]
    simp [requestsOf]

/-- C4 witness: two non-empty pages then an empty page, with a surplus
response behind the empty page that is never fetched. -/
theorem c4_pagination_witness :
    (search_with_params [("ufOab", Val.s "ES")]
        ([[itemA], [itemB, itemC]].map Resp.ok ++ Resp.ok [] :: [Resp.ok [itemA]])).1
      = some [[itemA], [itemB, itemC]].flatten
    ∧ requestsOf (search_with_params [("ufOab", Val.s "ES")]
        ([[itemA], [itemB, itemC]].map Resp.ok ++ Resp.ok [] :: [Resp.ok [itemA]])).2
      = (List.range ([[itemA], [itemB, itemC]].length + 1)).map (fun i =>
          dictSet (dictSet [("ufOab", Val.s "ES")] "itensPorPagina" (Val.n 50)) "pagina"
            (Val.n (i + 1))) :=
  c4_pagination [("ufOab", Val.s "ES")] [[itemA], [itemB, itemC]] [Resp.ok [itemA]]
    (by decide)

/-! ### C5 — 429 retries the identical page with a fixed 10-unit sleep -/

/-- C5: for any number `n` of consecutive 429 responses, the loop neither
advances the page dict nor discards the accumulated items: the final outcome
equals that of the loop run on the remaining responses from the same state,
after `n` identical blocks consisting of the page progress message, a request
with the *same* query dict, the rate-limit progress message and a fixed
`sleep 10` — with no bound on `n`. -/
theorem c5_rate_limit_retries (rn : String) (d : Dict) (pubs : List Item) (n : Nat)
    (rest : List Resp) :
    searchLoop rn d pubs (List.replicate n Resp.rateLimited ++ rest)
      = ((searchLoop rn d pubs rest).1,
         (List.replicate n [Ev.progress (pageMsg rn d), Ev.request d,
            Ev.progress "Rate limit atingido. Aguardando...", Ev.sleep 10]).flatten
          ++ (searchLoop rn d pubs rest).2) := by
  induction n with
  | zero => simp
  | succ n ih =>
    rw [List.replicate_succ, List.cons_append, searchLoop_rateLimited, ih]
    simp [List.replicate_succ, List.flatten_cons, List.append_assoc]

/-! ### Rule-fusion lemmas -/

/-- The item list one rule's pagination produces, with its `_rule_name`-tagged
parameters, exactly as `execute_rules` invokes `search_with_params`. -/
def searchItems (r : SearchRule) (net : List Resp) : Option (List Item) :=
  (search_with_params (dictSet r.parameters "_rule_name" (Val.s r.name)) net).1

theorem runRules_nil (nets : List (List Resp)) (inc exc : List Item) :
    runRules [] nets inc exc = (some (inc, exc), []) := rfl

theorem runRules_cons_disabled (r : SearchRule) (rs : List SearchRule)
    (nets : List (List Resp)) (inc exc : List Item) (h : r.enabled = false) :
    runRules (r :: rs) nets inc exc = runRules rs nets inc exc := by
  simp [runRules, h]

theorem runRules_cons_or (r : SearchRule) (rs : List SearchRule) (net : List Resp)
    (nets : List (List Resp)) (inc exc pubs : List Item)
    (hen : r.enabled = true) (ht : r.rule_type = RuleType.INCLUDE)
    (hop : r.operator = RuleOperator.OR) (hs : searchItems r net = some pubs) :
    (runRules (r :: rs) (net :: nets) inc exc).1
      = (runRules rs nets (inc ++ pubs) exc).1 := by
  have hs' : (search_with_params (dictSet r.parameters "_rule_name" (Val.s r.name)) net).1
      = some pubs := hs
  simp [runRules, hen, hs', ht, hop]

theorem runRules_cons_and (r : SearchRule) (rs : List SearchRule) (net : List Resp)
    (nets : List (List Resp)) (inc exc pubs : List Item)
    (hen : r.enabled = true) (ht : r.rule_type = RuleType.INCLUDE)
    (hop : r.operator = RuleOperator.AND) (hs : searchItems r net = some pubs) :
    (runRules (r :: rs) (net :: nets) inc exc).1
      = (runRules rs nets
          (if inc.isEmpty then pubs
           else inc.filter (fun p => decide (exclKey p ∈
             (inc.map exclKey).filter (fun k => decide (k ∈ pubs.map exclKey)))))
          exc).1 := by
  have hs' : (search_with_params (dictSet r.parameters "_rule_name" (Val.s r.name)) net).1
      = some pubs := hs
  by_cases hinc : inc.isEmpty
  · simp [runRules, hen, hs', ht, hop, hinc]
  · simp [runRules, hen, hs', ht, hop, hinc]

theorem runRules_cons_exclude (r : SearchRule) (rs : List SearchRule) (net : List Resp)
    (nets : List (List Resp)) (inc exc pubs : List Item)
    (hen : r.enabled = true) (ht : r.rule_type = RuleType.EXCLUDE)
    (hs : searchItems r net = some pubs) :
    (runRules (r :: rs) (net :: nets) inc exc).1
      = (runRules rs nets inc (exc ++ pubs)).1 := by
  have hs' : (search_with_params (dictSet r.parameters "_rule_name" (Val.s r.name)) net).1
      = some pubs := hs
  simp [runRules, hen, hs', ht]

theorem execute_rules_no_exclusions (rules : List SearchRule) (nets : List (List Resp))
    (inc : List Item) (h : (runRules rules nets [] []).1 = some (inc, [])) :
    (execute_rules rules nets).1 = some (remove_duplicates inc) := by
  simp [execute_rules, h]

theorem execute_rules_with_exclusions (rules : List SearchRule) (nets : List (List Resp))
    (inc : List Item) (e : Item) (es : List Item)
    (h : (runRules rules nets [] []).1 = some (inc, e :: es)) :
    (execute_rules rules nets).1
      = some ((remove_duplicates inc).filter
          (fun p => decide (exclKey p ∉ (e :: es).map exclKey))) := by
  simp [execute_rules, h]

/-- Pagination ending in a clean empty page: items are the concatenated pages. -/
theorem search_with_params_pages_done (params : Dict) (pages : List (List Item))
    (rest : List Resp) (hne : ∀ pg ∈ pages, pg ≠ []) :
    (search_with_params params (pages.map Resp.ok ++ Resp.ok [] :: rest)).1
      = some pages.flatten := by
  have hd : dictGet (dictSet (dictSet params "itensPorPagina" (Val.n 50)) "pagina" (Val.n 1))
      "pagina"
      = some (Val.n (getPage
          (dictSet (dictSet params "itensPorPagina" (Val.n 50)) "pagina" (Val.n 1)))) := by
    rw [getPage_dictSet]
    exact dictGet_dictSet_self _ _ _
  simp only [search_with_params]
  rw [searchLoop_okPages_fst pages _ _ _ _ hne hd, searchLoop_ok_nil]
  simp

/-- Pagination interrupted by a non-200/429 status: the items accumulated so
far are still returned. -/
theorem search_with_params_pages_error (params : Dict) (pages : List (List Item))
    (code : Nat) (rest : List Resp) (hne : ∀ pg ∈ pages, pg ≠ []) :
    (search_with_params params (pages.map Resp.ok ++ Resp.httpError code :: rest)).1
      = some pages.flatten := by
  have hd : dictGet (dictSet (dictSet params "itensPorPagina" (Val.n 50)) "pagina" (Val.n 1))
      "pagina"
      = some (Val.n (getPage
          (dictSet (dictSet params "itensPorPagina" (Val.n 50)) "pagina" (Val.n 1)))) := by
    rw [getPage_dictSet]
    exact dictGet_dictSet_self _ _ _
  simp only [search_with_params]
  rw [searchLoop_okPages_fst pages _ _ _ _ hne hd, searchLoop_httpError]
  simp

/-! ### C6 — non-200/429 and transport failures are isolated per rule -/

/-- C6: (i) a non-200/429 HTTP status terminates the rule's pagination at once
with the items accumulated so far and a user-visible error naming the rule,
consuming no further response; (ii) likewise for a transport-level exception
(timeout, connection error, malformed body); (iii) the pages fetched before
the failure are still returned by `search_with_params`; (iv) at the
`execute_rules` level a rule whose pagination fails still contributes its
partial items and the remaining rules still run and contribute. -/
theorem c6_failure_isolated :
    (∀ (rn : String) (d : Dict) (pubs : List Item) (code : Nat) (rest : List Resp),
      searchLoop rn d pubs (Resp.httpError code :: rest)
        = (some pubs, [Ev.progress (pageMsg rn d), Ev.request d,
            Ev.error ("Erro na busca " ++ rn ++ ": " ++ toString code)]))
    ∧ (∀ (rn : String) (d : Dict) (pubs : List Item) (msg : String) (rest : List Resp),
      searchLoop rn d pubs (Resp.exn msg :: rest)
        = (some pubs, [Ev.progress (pageMsg rn d), Ev.request d,
            Ev.error ("Erro na requisição " ++ rn ++ ": " ++ msg)]))
    ∧ (∀ (params : Dict) (pages : List (List Item)) (code : Nat) (rest : List Resp),
      (∀ pg ∈ pages, pg ≠ []) →
      (search_with_params params (pages.map Resp.ok ++ Resp.httpError code :: rest)).1
        = some pages.flatten)
    ∧ (∀ (r1 r2 : SearchRule) (pages1 : List (List Item)) (code : Nat) (rest1 : List Resp)
        (pages2 : List (List Item)),
      r1.enabled = true → r1.rule_type = RuleType.INCLUDE → r1.operator = RuleOperator.OR →
      r2.enabled = true → r2.rule_type = RuleType.INCLUDE → r2.operator = RuleOperator.OR →
      (∀ pg ∈ pages1, pg ≠ []) → (∀ pg ∈ pages2, pg ≠ []) →
      (execute_rules [r1, r2]
          [pages1.map Resp.ok ++ Resp.httpError code :: rest1,
           pages2.map Resp.ok ++ Resp.ok [] :: []]).1
        = some (remove_duplicates (pages1.flatten ++ pages2.flatten))) := by
  refine ⟨searchLoop_httpError, searchLoop_exn, search_with_params_pages_error, ?_⟩
  intro r1 r2 pages1 code rest1 pages2 hen1 ht1 hop1 hen2 ht2 hop2 hne1 hne2
  have h1 : searchItems r1 (pages1.map Resp.ok ++ Resp.httpError code :: rest1)
      = some pages1.flatten :=
    search_with_params_pages_error _ pages1 code rest1 hne1
  have h2 : searchItems r2 (pages2.map Resp.ok ++ Resp.ok [] :: [])
      = some pages2.flatten :=
    search_with_params_pages_done _ pages2 [] hne2
  apply execute_rules_no_exclusions
  rw [runRules_cons_or r1 [r2] _ _ [] [] pages1.flatten hen1 ht1 hop1 h1]
  rw [runRules_cons_or r2 [] _ [] ([] ++ pages1.flatten) [] pages2.flatten hen2 ht2 hop2 h2]
  rw [runRules_nil]
  simp

/-- C6 witness: the first rule's pagination dies with a 500 after one page; its
partial page and the second rule's items both reach the final list. -/
theorem c6_failure_isolated_witness :
    (execute_rules [incOrRule, incOrRule]
        [[Resp.ok [itemA], Resp.httpError 500], [Resp.ok [itemB], Resp.ok []]]).1
      = some (remove_duplicates ([[itemA]].flatten ++ [[itemB]].flatten)) :=
  c6_failure_isolated.2.2.2 incOrRule incOrRule [[itemA]] 500 [] [[itemB]]
    rfl rfl rfl rfl rfl rfl (by decide) (by decide)

/-! ### C2 — exclusion filtering -/

/-- C2 (amended): when the enabled rules produce a non-empty exclude
accumulator, `execute_rules` returns exactly the deduplicated include items
for which no excluded item has the same key `pub.get('hash', pub.get('id',
''))`, preserving the deduplicated include order; and on the spec's example,
an Or rule fetching {A,B,C} and an Exclude rule fetching {B} yield [A, C]. -/
theorem c2_exclusion_filter :
    (∀ (rules : List SearchRule) (nets : List (List Resp)) (inc exc : List Item),
      (runRules rules nets [] []).1 = some (inc, exc) → exc ≠ [] →
      (execute_rules rules nets).1
        = some ((remove_duplicates inc).filter
            (fun p => decide (¬ ∃ q ∈ exc, exclKey q = exclKey p))))
    ∧ (execute_rules [incOrRule, excRule]
        [[Resp.ok [itemA, itemB, itemC], Resp.ok []], [Resp.ok [itemB], Resp.ok []]]).1
      = some [itemA, itemC] := by
  constructor
  · intro rules nets inc exc hrun hne
    cases exc with
    | nil => exact absurd rfl hne
    | cons e es =>
      rw [execute_rules_with_exclusions rules nets inc e es hrun]
      congr 1
      apply List.filter_congr
      intro p _
      exact decide_eq_decide.mpr (not_congr List.mem_map)
  · decide

/-- C2 witness for the general conjunct, at a concrete run. -/
theorem c2_exclusion_filter_witness :
    (execute_rules [incOrRule, excRule]
        [[Resp.ok [x0], Resp.ok []], [Resp.ok [y0], Resp.ok []]]).1
      = some ((remove_duplicates [x0]).filter
          (fun p => decide (¬ ∃ q ∈ [y0], exclKey q = exclKey p))) :=
  c2_exclusion_filter.1 [incOrRule, excRule]
    [[Resp.ok [x0], Resp.ok []], [Resp.ok [y0], Resp.ok []]] [x0] [y0]
    (by decide) (by decide)

/-- C2 counterexample to the claim as stated: with the spec's identity key
(`contentHash` else the composite pair), the hashless include item `x0` is in
no excluded item's key class — its spec key differs from `y0`'s — yet the code
filters it out, because the code keys exclusion by `id` alone. -/
theorem c2_spec_key_cex :
    (execute_rules [incOrRule, excRule]
        [[Resp.ok [x0], Resp.ok []], [Resp.ok [y0], Resp.ok []]]).1 = some []
    ∧ remove_duplicates [x0] = [x0]
    ∧ specIdentityKey x0 ≠ specIdentityKey y0 := by decide

/-! ### C3 — And-combinator intersection -/

/-- `runRules` And-step with the redundant `common_hashes` test simplified:
for items already in the accumulator, membership in the intersection of the
two key sets is membership in the new items' key set. -/
theorem runRules_cons_and_exists (r : SearchRule) (rs : List SearchRule) (net : List Resp)
    (nets : List (List Resp)) (inc exc pubs : List Item)
    (hen : r.enabled = true) (ht : r.rule_type = RuleType.INCLUDE)
    (hop : r.operator = RuleOperator.AND) (hs : searchItems r net = some pubs) :
    (runRules (r :: rs) (net :: nets) inc exc).1
      = (runRules rs nets
          (if inc.isEmpty then pubs
           else inc.filter (fun p => decide (∃ q ∈ pubs, exclKey q = exclKey p))) exc).1 := by
  rw [runRules_cons_and r rs net nets inc exc pubs hen ht hop hs]
  by_cases hinc : inc.isEmpty
  · rw [if_pos hinc, if_pos hinc]
  · rw [if_neg hinc, if_neg hinc]
    have hfe : inc.filter (fun p => decide (exclKey p ∈
          (inc.map exclKey).filter (fun k => decide (k ∈ pubs.map exclKey))))
        = inc.filter (fun p => decide (∃ q ∈ pubs, exclKey q = exclKey p)) := by
      apply List.filter_congr
      intro p hp
      refine decide_eq_decide.mpr ?_
      rw [List.mem_filter]
      constructor
      · rintro ⟨-, h2⟩
        exact List.mem_map.mp (of_decide_eq_true h2)
      · intro hex
        exact ⟨List.mem_map_of_mem exclKey hp,
          decide_eq_true (List.mem_map.mpr hex)⟩
    rw [hfe]

/-- C3 (amended): (i) an enabled Include/And rule leaves the accumulator as
the fetched items when it was empty, and otherwise keeps (in order) exactly
the accumulated items some fetched item of which shares their key
`pub.get('hash', pub.get('id', ''))`; (ii) hence for exactly two enabled
Include/And rules the fused include list is the first rule's items filtered
to those matching some item of the second rule, deduplicated. -/
theorem c3_and_intersection :
    (∀ (r : SearchRule) (rs : List SearchRule) (net : List Resp) (nets : List (List Resp))
        (inc exc pubs : List Item),
      r.enabled = true → r.rule_type = RuleType.INCLUDE → r.operator = RuleOperator.AND →
      searchItems r net = some pubs →
      (runRules (r :: rs) (net :: nets) inc exc).1
        = (runRules rs nets
            (if inc.isEmpty then pubs
             else inc.filter (fun p => decide (∃ q ∈ pubs, exclKey q = exclKey p))) exc).1)
    ∧ (∀ (r1 r2 : SearchRule) (net1 net2 : List Resp) (items1 items2 : List Item),
      r1.enabled = true → r1.rule_type = RuleType.INCLUDE → r1.operator = RuleOperator.AND →
      r2.enabled = true → r2.rule_type = RuleType.INCLUDE → r2.operator = RuleOperator.AND →
      searchItems r1 net1 = some items1 → searchItems r2 net2 = some items2 →
      (execute_rules [r1, r2] [net1, net2]).1
        = some (remove_duplicates
            (if items1.isEmpty then items2
             else items1.filter (fun p => decide (∃ q ∈ items2, exclKey q = exclKey p))))) := by
  refine ⟨runRules_cons_and_exists, ?_⟩
  intro r1 r2 net1 net2 items1 items2 hen1 ht1 hop1 hen2 ht2 hop2 hs1 hs2
  apply execute_rules_no_exclusions
  rw [runRules_cons_and_exists r1 [r2] net1 [net2] [] [] items1 hen1 ht1 hop1 hs1]
  rw [runRules_cons_and_exists r2 [] net2 [] _ [] items2 hen2 ht2 hop2 hs2]
  rw [runRules_nil]
  simp

/-- C3 witness: two And rules over {A,B,C} and {B,A}. -/
theorem c3_and_intersection_witness :
    (execute_rules [andRule1, andRule2]
        [[Resp.ok [itemA, itemB, itemC], Resp.ok []], [Resp.ok [itemB, itemA], Resp.ok []]]).1
      = some (remove_duplicates
          (if ([itemA, itemB, itemC] : List Item).isEmpty then [itemB, itemA]
           else [itemA, itemB, itemC].filter
             (fun p => decide (∃ q ∈ [itemB, itemA], exclKey q = exclKey p)))) :=
  c3_and_intersection.2 andRule1 andRule2
    [Resp.ok [itemA, itemB, itemC], Resp.ok []] [Resp.ok [itemB, itemA], Resp.ok []]
    [itemA, itemB, itemC] [itemB, itemA]
    rfl rfl rfl rfl rfl rfl (by decide) (by decide)

/-- C3 counterexample to the claim as stated: with the spec's identity key the
hashless accumulator item `x0` matches no fetched item of the second And rule
— its spec key differs from `y0`'s — so the claim demands it be dropped, but
the code keeps it, keying the intersection by `id` alone. -/
theorem c3_spec_key_cex :
    (execute_rules [andRule1, andRule2]
        [[Resp.ok [x0], Resp.ok []], [Resp.ok [y0], Resp.ok []]]).1 = some [x0]
    ∧ specIdentityKey x0 ≠ specIdentityKey y0 := by decide

/-! ### C1 — the identity keys of the three set operations -/

/-- C1 counterexample: two items both lacking `hash`, with equal `id` but
different case numbers — their composite pairs (and spec identity keys)
differ, yet the exclusion step treats them as matching (the include item is
filtered out), because `execute_rules` keys exclusion by `id` alone. -/
theorem c1_identity_key_cex :
    (execute_rules [incOrRule, excRule]
        [[Resp.ok [x0], Resp.ok []], [Resp.ok [y0], Resp.ok []]]).1 = some []
    ∧ x0.hash = none ∧ y0.hash = none
    ∧ x0.id = y0.id
    ∧ x0.numeroprocessocommascara ≠ y0.numeroprocessocommascara
    ∧ specIdentityKey x0 ≠ specIdentityKey y0 := by decide

/-- C1 (amended): for hash-less items, intersection/exclusion and
deduplication use *different* fallback keys.  Exclusion matches two hash-less
items exactly when their `id` fields agree (ignoring the case number), while
`remove_duplicates` collapses two hash-less items exactly when their composite
strings `id_caseNumber` agree. -/
theorem c1_fallback_keys (x y : Item) (hx : x.hash = none) (hy : y.hash = none) :
    ((execute_rules [incOrRule, excRule]
        [[Resp.ok [x], Resp.ok []], [Resp.ok [y], Resp.ok []]]).1
      = some (if x.id.getD "" = y.id.getD "" then [] else [x]))
    ∧ remove_duplicates [x, y]
      = (if compositeId x = compositeId y then [x] else [x, y]) := by
  constructor
  · have hsx : searchItems incOrRule [Resp.ok [x], Resp.ok []] = some [x] := by
      have := search_with_params_pages_done
        (dictSet incOrRule.parameters "_rule_name" (Val.s incOrRule.name)) [[x]] []
        (by intro pg hpg; rw [List.mem_singleton] at hpg; subst hpg; exact List.cons_ne_nil _ _)
      simpa [searchItems] using this
    have hsy : searchItems excRule [Resp.ok [y], Resp.ok []] = some [y] := by
      have := search_with_params_pages_done
        (dictSet excRule.parameters "_rule_name" (Val.s excRule.name)) [[y]] []
        (by intro pg hpg; rw [List.mem_singleton] at hpg; subst hpg; exact List.cons_ne_nil _ _)
      simpa [searchItems] using this
    have hrun : (runRules [incOrRule, excRule]
        [[Resp.ok [x], Resp.ok []], [Resp.ok [y], Resp.ok []]] [] []).1
        = some ([x], [y]) := by
      rw [runRules_cons_or incOrRule [excRule] _ _ [] [] [x] rfl rfl rfl hsx]
      rw [runRules_cons_exclude excRule [] _ [] ([] ++ [x]) [] [y] rfl rfl hsy]
      rw [runRules_nil]
      simp
    rw [execute_rules_with_exclusions _ _ [x] y [] hrun]
    have hdup : remove_duplicates [x] = [x] := by
      rw [remove_duplicates, removeDupGo_cons, if_neg (List.not_mem_nil _)]
      rfl
    rw [hdup]
    have hkx : exclKey x = x.id.getD "" := by simp [exclKey, hx]
    have hky : exclKey y = y.id.getD "" := by simp [exclKey, hy]
    by_cases hid : x.id.getD "" = y.id.getD ""
    · rw [if_pos hid]
      simp [List.filter_cons, hkx, hky, hid]
    · rw [if_neg hid]
      simp [List.filter_cons, hkx, hky, hid]
  · have kx : dedupeKey x = compositeId x := by simp [dedupeKey, hx]
    have ky : dedupeKey y = compositeId y := by simp [dedupeKey, hy]
    by_cases hc : compositeId x = compositeId y
    · rw [if_pos hc]
      rw [remove_duplicates, removeDupGo_cons, if_neg (List.not_mem_nil _),
        removeDupGo_cons, if_pos (by rw [kx, ky, List.mem_singleton]; exact hc.symm)]
      rfl
    · rw [if_neg hc]
      rw [remove_duplicates, removeDupGo_cons, if_neg (List.not_mem_nil _),
        removeDupGo_cons, if_neg (by rw [kx, ky, List.mem_singleton]; exact fun h => hc h.symm)]
      rfl

/-- C1 witness at the counterexample items. -/
theorem c1_fallback_keys_witness :
    ((execute_rules [incOrRule, excRule]
        [[Resp.ok [x0], Resp.ok []], [Resp.ok [y0], Resp.ok []]]).1
      = some (if x0.id.getD "" = y0.id.getD "" then [] else [x0]))
    ∧ remove_duplicates [x0, y0]
      = (if compositeId x0 = compositeId y0 then [x0] else [x0, y0]) :=
  c1_fallback_keys x0 y0 rfl rfl

/-! ### C7 — dedup is stable, keyed by the code's string key -/

/-- C7 counterexample to the claim as stated: an item whose `hash` is the
string `"1_a"` and a hash-less item with `id = "1"`, case number `"a"` have
*different* spec identity keys (a hash vs a composite pair), yet
`remove_duplicates` drops the second because both keys land in the same
`seen_hashes` string set as `"1_a"`. -/
theorem c7_identity_key_cex :
    remove_duplicates [xh, yc] = [xh]
    ∧ specIdentityKey xh ≠ specIdentityKey yc
    ∧ xh.hash = some "1_a" ∧ yc.hash = none
    ∧ yc.id = some "1" ∧ yc.numeroprocessocommascara = some "a" := by decide

/-- C7 (amended): dedup is stable with respect to the implemented string key
(`hash` when present and non-empty, else `id_caseNumber`, both in one
namespace): the output is a subsequence of the input, its keys are pairwise
distinct, every input key is represented, and each survivor is the first
input element bearing its key. -/
theorem c7_dedupe_stable (A : List Item) :
    (remove_duplicates A).Sublist A
    ∧ ((remove_duplicates A).map dedupeKey).Nodup
    ∧ (∀ p ∈ A, ∃ q ∈ remove_duplicates A, dedupeKey q = dedupeKey p)
    ∧ (∀ q ∈ remove_duplicates A,
        A.find? (fun p => dedupeKey p == dedupeKey q) = some q) := by
  refine ⟨removeDupGo_sublist A [], removeDupGo_keys_nodup A [], ?_, ?_⟩
  · intro p hp
    rcases removeDupGo_covers A [] p hp with hs | hq
    · exact absurd hs (List.not_mem_nil _)
    · exact hq
  · intro q hq
    exact removeDupGo_firstOcc A [] q hq

/-- C7 witness at a list with a duplicate key. -/
theorem c7_dedupe_stable_witness :
    (remove_duplicates [itemA, x0, itemA, y0]).Sublist [itemA, x0, itemA, y0]
    ∧ ((remove_duplicates [itemA, x0, itemA, y0]).map dedupeKey).Nodup
    ∧ (∀ p ∈ [itemA, x0, itemA, y0],
        ∃ q ∈ remove_duplicates [itemA, x0, itemA, y0], dedupeKey q = dedupeKey p)
    ∧ (∀ q ∈ remove_duplicates [itemA, x0, itemA, y0],
        ([itemA, x0, itemA, y0] : List Item).find?
          (fun p => dedupeKey p == dedupeKey q) = some q) :=
  c7_dedupe_stable [itemA, x0, itemA, y0]

/-! ### C8 — dedup is idempotent -/

/-- C8: `remove_duplicates` is idempotent. -/
theorem c8_dedupe_idempotent (A : List Item) :
    remove_duplicates (remove_duplicates A) = remove_duplicates A := by
  rw [remove_duplicates]
  apply removeDupGo_of_nodup
  · exact removeDupGo_keys_nodup A []
  · intro p _
    exact List.not_mem_nil _

/-! ### C9 — the exact query parameters of every request -/

theorem requestsOf_append (a b : List Ev) :
    requestsOf (a ++ b) = requestsOf a ++ requestsOf b := by
  simp [requestsOf]

/-- Every request the pagination loop issues is the starting dict with only
its `pagina` entry rewritten (to the current page number). -/
theorem searchLoop_request_shape :
    ∀ (resps : List Resp) (rn : String) (d : Dict) (pubs : List Item) (q : Dict),
    dictGet d "pagina" = some (Val.n (getPage d)) →
    q ∈ requestsOf (searchLoop rn d pubs resps).2 →
    ∃ k, getPage d ≤ k ∧ q = dictSet d "pagina" (Val.n k) := by
  intro resps
  induction resps with
  | nil =>
    intro rn d pubs q _ hq
    simp [searchLoop, requestsOf] at hq
  | cons r rest ih =>
    intro rn d pubs q hd hq
    cases r with
    | ok items =>
      cases items with
      | nil =>
        rw [searchLoop_ok_nil] at hq
        simp [requestsOf] at hq
        exact ⟨getPage d, le_refl _, hq.trans (dictSet_of_get d _ _ hd).symm⟩
      | cons i its =>
        rw [searchLoop_ok_nonempty] at hq
        simp only [requestsOf, List.filterMap_cons] at hq
        rcases List.mem_cons.mp hq with hqd | hq'
        · exact ⟨getPage d, le_refl _, hqd.trans (dictSet_of_get d _ _ hd).symm⟩
        · have hd' : dictGet (dictSet d "pagina" (Val.n (getPage d + 1))) "pagina"
              = some (Val.n (getPage (dictSet d "pagina" (Val.n (getPage d + 1))))) := by
            rw [getPage_dictSet]
            exact dictGet_dictSet_self _ _ _
          obtain ⟨k, hk, rfl⟩ := ih rn _ _ q hd' hq'
          rw [getPage_dictSet] at hk
          exact ⟨k, by omega, by rw [dictSet_dictSet]⟩
    | rateLimited =>
      rw [searchLoop_rateLimited] at hq
      simp only [requestsOf, List.filterMap_cons] at hq
      rcases List.mem_cons.mp hq with hqd | hq'
      · exact ⟨getPage d, le_refl _, hqd.trans (dictSet_of_get d _ _ hd).symm⟩
      · exact ih rn d pubs q hd hq'
    | httpError code =>
      rw [searchLoop_httpError] at hq
      simp [requestsOf] at hq
      exact ⟨getPage d, le_refl _, hq.trans (dictSet_of_get d _ _ hd).symm⟩
    | exn msg =>
      rw [searchLoop_exn] at hq
      simp [requestsOf] at hq
      exact ⟨getPage d, le_refl _, hq.trans (dictSet_of_get d _ _ hd).symm⟩

/-- Every request `search_with_params` issues carries the caller's params plus
`itensPorPagina = 50` and `pagina = k` for some `k ≥ 1`, and nothing else. -/
theorem search_with_params_request_shape (params : Dict) (net : List Resp) (q : Dict)
    (hq : q ∈ requestsOf (search_with_params params net).2) :
    ∃ k, 1 ≤ k ∧
      q = dictSet (dictSet params "itensPorPagina" (Val.n 50)) "pagina" (Val.n k) := by
  simp only [search_with_params] at hq
  have hd : dictGet (dictSet (dictSet params "itensPorPagina" (Val.n 50)) "pagina" (Val.n 1))
      "pagina"
      = some (Val.n (getPage
          (dictSet (dictSet params "itensPorPagina" (Val.n 50)) "pagina" (Val.n 1)))) := by
    rw [getPage_dictSet]
    exact dictGet_dictSet_self _ _ _
  obtain ⟨k, hk, rfl⟩ := searchLoop_request_shape net _ _ _ q hd hq
  rw [getPage_dictSet] at hk
  exact ⟨k, hk, by rw [dictSet_dictSet]⟩

theorem runRules_request_shape :
    ∀ (rules : List SearchRule) (nets : List (List Resp)) (inc exc : List Item) (q : Dict),
    q ∈ requestsOf (runRules rules nets inc exc).2 →
    ∃ r ∈ rules, r.enabled = true ∧ ∃ k, 1 ≤ k ∧
      q = dictSet (dictSet (dictSet r.parameters "_rule_name" (Val.s r.name))
            "itensPorPagina" (Val.n 50)) "pagina" (Val.n k) := by
  intro rules
  induction rules with
  | nil =>
    intro nets inc exc q hq
    simp [runRules, requestsOf] at hq
  | cons r rs ih =>
    intro nets inc exc q hq
    by_cases hen : r.enabled
    · cases nets with
      | nil =>
        simp [runRules, hen, requestsOf] at hq
      | cons net nets' =>
        cases hres : (search_with_params (dictSet r.parameters "_rule_name" (Val.s r.name))
            net).1 with
        | none =>
          simp only [runRules, hen, if_true, hres, requestsOf, List.filterMap_cons] at hq
          obtain ⟨k, hk, rfl⟩ := search_with_params_request_shape _ net q hq
          exact ⟨r, List.mem_cons_self _ _, hen, k, hk, rfl⟩
        | some pubs =>
          simp only [runRules, hen, if_true, hres, requestsOf, List.filterMap_cons,
            List.filterMap_append] at hq
          rcases List.mem_append.mp hq with hq' | hq'
          · obtain ⟨k, hk, rfl⟩ := search_with_params_request_shape _ net q hq'
            exact ⟨r, List.mem_cons_self _ _, hen, k, hk, rfl⟩
          · obtain ⟨r', hr', hres'⟩ := ih nets' _ _ q hq'
            exact ⟨r', List.mem_cons_of_mem _ hr', hres'⟩
    · rw [runRules_cons_disabled r rs nets inc exc (by simpa using hen)] at hq
      obtain ⟨r', hr', hres'⟩ := ih nets inc exc q hq
      exact ⟨r', List.mem_cons_of_mem _ hr', hres'⟩

/-- C9 (amended): every HTTP query `execute_rules` issues belongs to some
enabled rule and consists of exactly that rule's effective parameters plus the
`_rule_name` tag, `itensPorPagina = 50` and `pagina = k` with `k ≥ 1`. -/
theorem c9_request_params :
    ∀ (rules : List SearchRule) (nets : List (List Resp)) (q : Dict),
    q ∈ requestsOf (execute_rules rules nets).2 →
    ∃ r ∈ rules, r.enabled = true ∧ ∃ k, 1 ≤ k ∧
      q = dictSet (dictSet (dictSet r.parameters "_rule_name" (Val.s r.name))
            "itensPorPagina" (Val.n 50)) "pagina" (Val.n k) := by
  intro rules nets q hq
  have hq' : q ∈ requestsOf (runRules rules nets [] []).2 := by
    cases hrun : (runRules rules nets [] []).1 with
    | none =>
      simpa [execute_rules, hrun] using hq
    | some p =>
      obtain ⟨inc, exc⟩ := p
      cases exc with
      | nil =>
        simp [execute_rules, hrun, requestsOf, List.filterMap_append] at hq
        simpa [requestsOf] using hq
      | cons e es =>
        simp [execute_rules, hrun, requestsOf, List.filterMap_append] at hq
        simpa [requestsOf] using hq
  exact runRules_request_shape rules nets [] [] q hq'

/-- C9 counterexample to the claim as stated: the single request of a one-rule
run also carries a `_rule_name` entry, which is neither one of the rule's
effective parameters nor the page-size nor the page-number parameter. -/
theorem c9_rule_name_leak_cex :
    requestsOf (execute_rules [incOrRule] [[Resp.ok []]]).2
      = [[("ufOab", Val.s "ES"), ("_rule_name", Val.s "R1"),
          ("itensPorPagina", Val.n 50), ("pagina", Val.n 1)]]
    ∧ dictGet [("ufOab", Val.s "ES"), ("_rule_name", Val.s "R1"),
          ("itensPorPagina", Val.n 50), ("pagina", Val.n 1)] "_rule_name"
        = some (Val.s "R1")
    ∧ dictGet incOrRule.parameters "_rule_name" = none := by decide

/-- C9 witness at the one-rule run. -/
theorem c9_request_params_witness :
    ∃ r ∈ [incOrRule], r.enabled = true ∧ ∃ k, 1 ≤ k ∧
      ([("ufOab", Val.s "ES"), ("_rule_name", Val.s "R1"),
        ("itensPorPagina", Val.n 50), ("pagina", Val.n 1)] : Dict)
        = dictSet (dictSet (dictSet r.parameters "_rule_name" (Val.s r.name))
            "itensPorPagina" (Val.n 50)) "pagina" (Val.n k) :=
  c9_request_params [incOrRule] [[Resp.ok []]]
    [("ufOab", Val.s "ES"), ("_rule_name", Val.s "R1"),
      ("itensPorPagina", Val.n 50), ("pagina", Val.n 1)] (by decide)

/-! ### C10 — `__post_init__` drops empty and null parameter values -/

/-- C10: the `SearchRule` constructor silently drops parameter entries whose
value is `None` or the empty string, keeps everything else, and on the spec's
example `{numeroOab: "", ufOab: "ES"}` only `ufOab` survives. -/
theorem c10_post_init_filter :
    ((mkSearchRule "R" RuleType.INCLUDE RuleOperator.OR true
        [("numeroOab", Val.s ""), ("ufOab", Val.s "ES")]).parameters
      = [("ufOab", Val.s "ES")])
    ∧ (∀ (nm : String) (t : RuleType) (op : RuleOperator) (en : Bool) (params : Dict)
        (kv : String × Val), kv ∈ (mkSearchRule nm t op en params).parameters →
        kv.2 ≠ Val.null ∧ kv.2 ≠ Val.s "" ∧ kv ∈ params)
    ∧ (∀ (nm : String) (t : RuleType) (op : RuleOperator) (en : Bool) (params : Dict)
        (kv : String × Val), kv ∈ params → kv.2 ≠ Val.null → kv.2 ≠ Val.s "" →
        kv ∈ (mkSearchRule nm t op en params).parameters) := by
  refine ⟨by decide, ?_, ?_⟩
  · intro nm t op en params kv hkv
    simp only [mkSearchRule] at hkv
    rcases List.mem_filter.mp hkv with ⟨h1, h2⟩
    have h3 := of_decide_eq_true h2
    exact ⟨h3.1, h3.2, h1⟩
  · intro nm t op en params kv h1 h2 h3
    simp only [mkSearchRule]
    exact List.mem_filter.mpr ⟨h1, decide_eq_true ⟨h2, h3⟩⟩

/-- C10 witness: the surviving entry of the spec's example. -/
theorem c10_post_init_filter_witness :
    (Val.s "ES" ≠ Val.null ∧ Val.s "ES" ≠ Val.s "" ∧
      (("ufOab", Val.s "ES") : String × Val)
        ∈ [("numeroOab", Val.s ""), ("ufOab", Val.s "ES")]) :=
  c10_post_init_filter.2.1 "R" RuleType.INCLUDE RuleOperator.OR true
    [("numeroOab", Val.s ""), ("ufOab", Val.s "ES")] ("ufOab", Val.s "ES") (by decide)
